import Mathlib

/-
Verification of the lead-tracking core (data.rs) of Yoric/lead.

Shallow embedding conventions:
  * `DateTime<Utc>` timestamps are modelled as `Int` (a totally ordered instant).
  * `HashMap` is modelled as an association list with unique keys
    (`nodupKeys` is the representation invariant a real `HashMap` enforces).
  * `BTreeMap<DateTime<Utc>, String>` is modelled as an association list sorted
    strictly ascending by key; `statusInsert` mirrors `BTreeMap::insert`
    (overwrite on equal key).
  * `anyhow::Error` values are modelled by `StoreError`; each constructor
    records the data interpolated into the corresponding `anyhow!` message,
    plus the verb that differs between `get`/`get_mut` ("modify") and
    `close_lead` ("close").  `StoreError.render` reproduces the exact
    message text of the source.
  * Methods taking `&mut self` and returning `Result` are embedded in
    state-passing style: the result carries the final state, so that the
    error branches (which in the source return before mutating) expose the
    unchanged state.
-/

/-- Errors produced by the core operations, one constructor per distinct
`anyhow!` / `context` message shape in data.rs. -/
inductive StoreError where
  | noSuchCompany : StoreError
  | ambiguous : Nat → String → StoreError
  | outOfRange : Nat → Nat → String → StoreError
  | noSuchTodo : StoreError
  | noSuchWait : StoreError
deriving DecidableEq, Repr

/-- The exact message text each `StoreError` stands for in the source. -/
def StoreError.render : StoreError → String
  | .noSuchCompany => ("No such company")
  | .ambiguous count verb =>
      ("There are ") ++ toString count ++
      (" positions for this company, please specify which one to ") ++ verb
  | .outOfRange count index verb =>
      ("There are only ") ++ toString count ++
      (" positions for this company, cannot ") ++ verb ++ (" position ") ++
      toString index
  | .noSuchTodo => ("No such todo")
  | .noSuchWait => ("No such wait")

/-- Association-list lookup, modelling `HashMap::get`. -/
def mapFind? {α : Type} : List (String × α) → String → Option α
  | [], _ => none
  | (k, v) :: rest, key => if key = k then some v else mapFind? rest key

/-- Association-list update-or-append, modelling `HashMap` insertion. -/
def mapSet {α : Type} : List (String × α) → String → α → List (String × α)
  | [], key, v => [(key, v)]
  | (k, w) :: rest, key, v =>
      if key = k then (k, v) :: rest else (k, w) :: mapSet rest key v

/-- Association-list key removal, modelling `HashMap::remove`. -/
def mapRemove {α : Type} : List (String × α) → String → List (String × α)
  | [], _ => []
  | (k, v) :: rest, key => if key = k then rest else (k, v) :: mapRemove rest key

/-- `BTreeMap::insert` on a strictly-ascending association list: insert in
order, overwriting the value when the key is already present. -/
def statusInsert (t : Int) (s : String) : List (Int × String) → List (Int × String)
  | [] => [(t, s)]
  | (t0, s0) :: rest =>
      if t < t0 then (t, s) :: (t0, s0) :: rest
      else if t = t0 then (t, s) :: rest
      else (t0, s0) :: statusInsert t s rest

/-- `BTreeMap` lookup by key. -/
def statusLookup : List (Int × String) → Int → Option String
  | [], _ => none
  | (t0, s0) :: rest, t => if t = t0 then some s0 else statusLookup rest t

/-- The `BTreeMap` representation invariant: keys strictly ascending. -/
def statusWF (m : List (Int × String)) : Prop :=
  List.Pairwise (fun a b => a.1 < b.1) m

/-- `Todo` from data.rs. -/
structure Todo where
  action : String
  deadline : Int
deriving DecidableEq, Repr

/-- `Wait` from data.rs. -/
structure Wait where
  action : String
  expected : Option Int
deriving DecidableEq, Repr

/-- `Interview` from data.rs. -/
structure Interview where
  pre_notes : List String
  post_notes : List String
deriving DecidableEq, Repr

/-- `Lead` from data.rs.  `CompanyName` and `InterviewName` are transparent
string wrappers in the source and are modelled as `String`. -/
structure Lead where
  position : String
  source : String
  notes : List (String × List String)
  interviews : List (String × Interview)
  red_flags : List String
  status_updates : List (Int × String)
  todo : List Todo
  wait : List Wait
deriving DecidableEq, Repr

/-- `Lead::new`.  The source seeds the timeline with "Created" at
`Utc::now()`; the current instant is passed explicitly here. -/
def Lead.new (now : Int) (position source : String) : Lead :=
  { position := position
    source := source
    interviews := []
    red_flags := []
    status_updates := [(now, ("Created"))]
    notes := []
    todo := []
    wait := [] }

/-- `Lead::add_note`: push onto `notes[name]`, creating the entry if absent. -/
def Lead.add_note (l : Lead) (name note : String) : Lead :=
  { l with notes := mapSet l.notes name (((mapFind? l.notes name).getD []) ++ [note]) }

/-- `Lead::add_status`: `self.status_updates.insert(date, status)`. -/
def Lead.add_status (l : Lead) (date : Int) (status : String) : Lead :=
  { l with status_updates := statusInsert date status l.status_updates }

/-- `Lead::add_todo`. -/
def Lead.add_todo (l : Lead) (updated_on : Int) (action : String) (deadline : Int) : Lead :=
  let l1 := l.add_status updated_on (("TODO: ") ++ action)
  { l1 with todo := l1.todo ++ [{ action := action, deadline := deadline }] }

/-- `Lead::complete_todo`.  The source returns `Err` before mutating when
`index >= self.todo.len()` (exactly when `l.todo[index]?` is `none`). -/
def Lead.complete_todo (l : Lead) (updated_on : Int) (index : Nat) :
    Except StoreError Unit × Lead :=
  match l.todo[index]? with
  | none => (.error .noSuchTodo, l)
  | some td =>
      (.ok (), ({ l with todo := l.todo.eraseIdx index }).add_status updated_on
        (("DONE: ") ++ td.action))

/-- `Lead::add_wait`. -/
def Lead.add_wait (l : Lead) (updated_on : Int) (action : String) (expected : Option Int) : Lead :=
  let l1 := l.add_status updated_on (("WAITING: ") ++ action)
  { l1 with wait := l1.wait ++ [{ action := action, expected := expected }] }

/-- `Lead::complete_wait`, symmetric to `complete_todo`. -/
def Lead.complete_wait (l : Lead) (updated_on : Int) (index : Nat) :
    Except StoreError Unit × Lead :=
  match l.wait[index]? with
  | none => (.error .noSuchWait, l)
  | some w =>
      (.ok (), ({ l with wait := l.wait.eraseIdx index }).add_status updated_on
        (("RECEIVED: ") ++ w.action))

/-- `Leads` from data.rs: company name → open positions. -/
structure Leads where
  leads : List (String × List Lead)
deriving DecidableEq, Repr

/-- `Leads::new`. -/
def Leads.new : Leads := { leads := [] }

/-- `Leads::push_lead`: `self.leads.entry(name).or_default().push(lead)`,
returning the pushed lead's index. -/
def Leads.push_lead (s : Leads) (name : String) (lead : Lead) : Leads × Nat :=
  match mapFind? s.leads name with
  | some ps => ({ leads := mapSet s.leads name (ps ++ [lead]) }, ps.length)
  | none => ({ leads := s.leads ++ [(name, [lead])] }, 0)

/-- `Leads::new_lead`. -/
def Leads.new_lead (s : Leads) (now : Int) (name position source : String) : Leads × Nat :=
  s.push_lead name (Lead.new now position source)

/-- `Leads::get`: resolve a company plus optional position index. -/
def Leads.get (s : Leads) (name : String) (index : Option Nat) :
    Except StoreError Lead :=
  match mapFind? s.leads name with
  | none => .error .noSuchCompany
  | some positions =>
      match index with
      | none =>
          match positions with
          | [p] => .ok p
          | _ => .error (.ambiguous positions.length ("modify"))
      | some i =>
          match positions[i]? with
          | some p => .ok p
          | none => .error (.outOfRange positions.length i ("modify"))

/-- `Leads::get_mut`: identical resolution logic to `Leads::get`. -/
def Leads.get_mut (s : Leads) (name : String) (index : Option Nat) :
    Except StoreError Lead :=
  match mapFind? s.leads name with
  | none => .error .noSuchCompany
  | some positions =>
      match index with
      | none =>
          match positions with
          | [p] => .ok p
          | _ => .error (.ambiguous positions.length ("modify"))
      | some i =>
          match positions[i]? with
          | some p => .ok p
          | none => .error (.outOfRange positions.length i ("modify"))

/-- `Leads::close_lead`.  `None` with a single position uses `Vec::pop`;
`Some(index)` in range uses `Vec::remove` (order-preserving `eraseIdx`);
the closed lead gets a "Closed: reason" status entry and the company key is
removed when its position list becomes empty.  Errors return before any
mutation, so the state component is `s` unchanged on every error branch. -/
def Leads.close_lead (s : Leads) (date : Int) (name : String) (index : Option Nat)
    (reason : String) : Except StoreError Lead × Leads :=
  match mapFind? s.leads name with
  | none => (.error .noSuchCompany, s)
  | some positions =>
      match index with
      | none =>
          match positions with
          | [p] =>
              (.ok (p.add_status date (("Closed: ") ++ reason)),
               { leads := mapRemove s.leads name })
          | _ => (.error (.ambiguous positions.length ("close")), s)
      | some i =>
          match positions[i]? with
          | some p =>
              let rest := positions.eraseIdx i
              (.ok (p.add_status date (("Closed: ") ++ reason)),
               if rest.isEmpty then { leads := mapRemove s.leads name }
               else { leads := mapSet s.leads name rest })
          | none => (.error (.outOfRange positions.length i ("close")), s)

/-- `HashMap` keys are unique; representation invariant of the model. -/
def Leads.nodupKeys (s : Leads) : Prop :=
  (s.leads.map Prod.fst).Nodup

/-- The documented store invariant: every present company has at least one
position. -/
def Leads.noEmpty (s : Leads) : Prop :=
  ∀ k ps, mapFind? s.leads k = some ps → ps ≠ []

/-- Well-formedness of a store: unique keys and no empty position lists. -/
def Leads.WF (s : Leads) : Prop :=
  s.nodupKeys ∧ s.noEmpty

/-- Modelled from the spec: the persisted document shape for one Lead (spec
section 6).  The serializer itself (serde derive + serde_yaml) is not part of
src/; the field-presence rules come from the documented contract: `position`
and `source` always present, every other field omitted when empty and
defaulted to empty on load. -/
structure LeadDoc where
  position : String
  source : String
  notes : Option (List (String × List String))
  interviews : Option (List (String × Interview))
  red_flags : Option (List String)
  status_updates : Option (List (Int × String))
  todo : Option (List Todo)
  wait : Option (List Wait)
deriving DecidableEq, Repr

/-- Modelled from the spec: serialize one Lead, omitting empty collections. -/
def encodeLead (l : Lead) : LeadDoc :=
  { position := l.position
    source := l.source
    notes := if l.notes.isEmpty then none else some l.notes
    interviews := if l.interviews.isEmpty then none else some l.interviews
    red_flags := if l.red_flags.isEmpty then none else some l.red_flags
    status_updates := if l.status_updates.isEmpty then none else some l.status_updates
    todo := if l.todo.isEmpty then none else some l.todo
    wait := if l.wait.isEmpty then none else some l.wait }

/-- Rebuild a `BTreeMap` by inserting each persisted entry in document order,
as deserialization does. -/
def statusFromList (entries : List (Int × String)) : List (Int × String) :=
  entries.foldl (fun m ts => statusInsert ts.1 ts.2 m) []

/-- Modelled from the spec: deserialize one Lead, defaulting absent fields. -/
def decodeLead (d : LeadDoc) : Lead :=
  { position := d.position
    source := d.source
    notes := d.notes.getD []
    interviews := d.interviews.getD []
    red_flags := d.red_flags.getD []
    status_updates := statusFromList (d.status_updates.getD [])
    todo := d.todo.getD []
    wait := d.wait.getD [] }

/-- Modelled from the spec: the persisted store document is the company map
with each Lead serialized. -/
def encodeLeads (s : Leads) : List (String × List LeadDoc) :=
  s.leads.map (fun kv => (kv.1, kv.2.map encodeLead))

/-- Modelled from the spec: load a store document. -/
def decodeLeads (doc : List (String × List LeadDoc)) : Leads :=
  { leads := doc.map (fun kv => (kv.1, kv.2.map decodeLead)) }

/-- Every Lead in the store has a well-formed (strictly ascending) timeline;
holds for every store built by the operations, being the `BTreeMap`
representation invariant. -/
def Leads.statusesWF (s : Leads) : Prop :=
  ∀ kv ∈ s.leads, ∀ l ∈ kv.2, statusWF l.status_updates


/-- Concrete leads and stores used as witnesses. -/
def sampleLead1 : Lead := Lead.new 0 ("Engineer") ("acme.example/jobs/1")

def sampleLead2 : Lead := Lead.new 0 ("Manager") ("acme.example/jobs/2")

def sampleStore : Leads := { leads := [(("Acme"), [sampleLead1, sampleLead2])] }

def soloStore : Leads := { leads := [(("Acme"), [sampleLead1])] }

def emptySeqStore : Leads := { leads := [(("Acme"), [])] }

theorem mapFind?_set_self {α : Type} (m : List (String × α)) (k : String) (v : α) :
    mapFind? (mapSet m k v) k = some v := by
  induction m with
  | nil => simp [mapSet, mapFind?]
  | cons hd tl ih =>
      obtain ⟨k0, v0⟩ := hd
      by_cases h : k = k0
      · simp [mapSet, mapFind?, h]
      · simp [mapSet, mapFind?, h, ih]

theorem mapFind?_set_ne {α : Type} (m : List (String × α)) (k k' : String) (v : α)
    (hne : k' ≠ k) : mapFind? (mapSet m k v) k' = mapFind? m k' := by
  induction m with
  | nil => simp [mapSet, mapFind?, hne]
  | cons hd tl ih =>
      obtain ⟨k0, v0⟩ := hd
      by_cases h : k = k0
      · subst h
        simp [mapSet, mapFind?, hne]
      · by_cases h' : k' = k0
        · simp [mapSet, mapFind?, h, h']
        · simp [mapSet, mapFind?, h, h', ih]

theorem mapFind?_append_single_self {α : Type} (m : List (String × α)) (k : String) (v : α)
    (h : mapFind? m k = none) : mapFind? (m ++ [(k, v)]) k = some v := by
  induction m with
  | nil => simp [mapFind?]
  | cons hd tl ih =>
      obtain ⟨k0, v0⟩ := hd
      by_cases hk : k = k0
      · simp [mapFind?, hk] at h
      · simp [mapFind?, hk] at h ⊢
        exact ih h

theorem mapFind?_append_single_ne {α : Type} (m : List (String × α)) (k k' : String) (v : α)
    (hne : k' ≠ k) : mapFind? (m ++ [(k, v)]) k' = mapFind? m k' := by
  induction m with
  | nil => simp [mapFind?, hne]
  | cons hd tl ih =>
      obtain ⟨k0, v0⟩ := hd
      by_cases h' : k' = k0
      · simp [mapFind?, h']
      · simp [mapFind?, h', ih]

theorem mapFind?_remove_ne {α : Type} (m : List (String × α)) (k k' : String)
    (hne : k' ≠ k) : mapFind? (mapRemove m k) k' = mapFind? m k' := by
  induction m with
  | nil => simp [mapRemove]
  | cons hd tl ih =>
      obtain ⟨k0, v0⟩ := hd
      by_cases h : k = k0
      · subst h
        simp [mapRemove, mapFind?, hne]
      · by_cases h' : k' = k0
        · simp [mapRemove, mapFind?, h, h']
        · simp [mapRemove, mapFind?, h, h', ih]

theorem mapFind?_eq_none_iff {α : Type} (m : List (String × α)) (k : String) :
    mapFind? m k = none ↔ k ∉ m.map Prod.fst := by
  induction m with
  | nil => simp [mapFind?]
  | cons hd tl ih =>
      obtain ⟨k0, v0⟩ := hd
      by_cases h : k = k0
      · simp [mapFind?, h]
      · simp [mapFind?, h, ih]

theorem mapFind?_remove_self {α : Type} (m : List (String × α)) (k : String)
    (hnd : (m.map Prod.fst).Nodup) : mapFind? (mapRemove m k) k = none := by
  induction m with
  | nil => simp [mapRemove, mapFind?]
  | cons hd tl ih =>
      obtain ⟨k0, v0⟩ := hd
      simp only [List.map_cons, List.nodup_cons] at hnd
      by_cases h : k = k0
      · subst h
        simpa [mapRemove, mapFind?_eq_none_iff] using hnd.1
      · simp [mapRemove, mapFind?, h, ih hnd.2]

theorem mapRemove_sublist {α : Type} (m : List (String × α)) (k : String) :
    (mapRemove m k).Sublist m := by
  induction m with
  | nil => simp [mapRemove]
  | cons hd tl ih =>
      obtain ⟨k0, v0⟩ := hd
      by_cases h : k = k0
      · simp [mapRemove, h]
      · simpa [mapRemove, h] using ih.cons₂ (k0, v0)

theorem keys_mapSet_of_none {α : Type} (m : List (String × α)) (k : String) (v : α)
    (h : mapFind? m k = none) :
    (mapSet m k v).map Prod.fst = m.map Prod.fst ++ [k] := by
  induction m with
  | nil => simp [mapSet]
  | cons hd tl ih =>
      obtain ⟨k0, v0⟩ := hd
      by_cases hk : k = k0
      · simp [mapFind?, hk] at h
      · simp only [mapFind?, if_neg hk] at h
        simp [mapSet, hk, ih h]

theorem keys_mapSet_of_some {α : Type} (m : List (String × α)) (k : String) (v w : α)
    (h : mapFind? m k = some w) :
    (mapSet m k v).map Prod.fst = m.map Prod.fst := by
  induction m with
  | nil => simp [mapFind?] at h
  | cons hd tl ih =>
      obtain ⟨k0, v0⟩ := hd
      by_cases hk : k = k0
      · simp [mapSet, hk]
      · simp only [mapFind?, if_neg hk] at h
        simp [mapSet, hk, ih h]

theorem nodup_keys_mapSet {α : Type} (m : List (String × α)) (k : String) (v : α)
    (hnd : (m.map Prod.fst).Nodup) : ((mapSet m k v).map Prod.fst).Nodup := by
  cases h : mapFind? m k with
  | none =>
      rw [keys_mapSet_of_none m k v h]
      refine List.Nodup.append hnd (by simp) ?_
      intro a ha hb
      simp only [List.mem_singleton] at hb
      subst hb
      exact ((mapFind?_eq_none_iff m a).mp h) ha
  | some w =>
      rw [keys_mapSet_of_some m k v w h]
      exact hnd

theorem nodup_keys_mapRemove {α : Type} (m : List (String × α)) (k : String)
    (hnd : (m.map Prod.fst).Nodup) : ((mapRemove m k).map Prod.fst).Nodup :=
  hnd.sublist ((mapRemove_sublist m k).map Prod.fst)

theorem statusLookup_insert_self (m : List (Int × String)) (t : Int) (s : String) :
    statusLookup (statusInsert t s m) t = some s := by
  induction m with
  | nil => simp [statusInsert, statusLookup]
  | cons hd tl ih =>
      obtain ⟨t0, s0⟩ := hd
      by_cases h1 : t < t0
      · simp [statusInsert, statusLookup, h1]
      · by_cases h2 : t = t0
        · simp [statusInsert, statusLookup, h1, h2]
        · simp [statusInsert, statusLookup, h1, h2, ih]

theorem statusLookup_insert_ne (m : List (Int × String)) (t t' : Int) (s : String)
    (hne : t' ≠ t) : statusLookup (statusInsert t s m) t' = statusLookup m t' := by
  induction m with
  | nil => simp [statusInsert, statusLookup, hne]
  | cons hd tl ih =>
      obtain ⟨t0, s0⟩ := hd
      by_cases h1 : t < t0
      · simp [statusInsert, statusLookup, h1, hne]
      · by_cases h2 : t = t0
        · subst h2
          simp [statusInsert, statusLookup, h1, hne]
        · by_cases h3 : t' = t0
          · simp [statusInsert, statusLookup, h1, h2, h3]
          · simp [statusInsert, statusLookup, h1, h2, h3, ih]

theorem mem_statusInsert (m : List (Int × String)) (t : Int) (s : String)
    (x : Int × String) (hx : x ∈ statusInsert t s m) : x = (t, s) ∨ x ∈ m := by
  induction m with
  | nil =>
      simp only [statusInsert, List.mem_singleton] at hx
      exact Or.inl hx
  | cons hd tl ih =>
      obtain ⟨t0, s0⟩ := hd
      by_cases h1 : t < t0
      · simp only [statusInsert, if_pos h1] at hx
        exact List.mem_cons.mp hx
      · by_cases h2 : t = t0
        · simp only [statusInsert, if_neg h1, if_pos h2] at hx
          rcases List.mem_cons.mp hx with h | h
          · exact Or.inl h
          · exact Or.inr (List.mem_cons_of_mem _ h)
        · simp only [statusInsert, if_neg h1, if_neg h2] at hx
          rcases List.mem_cons.mp hx with h | h
          · exact Or.inr (by simp [h])
          · rcases ih h with h' | h'
            · exact Or.inl h'
            · exact Or.inr (List.mem_cons_of_mem _ h')

theorem statusWF_insert (m : List (Int × String)) (t : Int) (s : String)
    (h : statusWF m) : statusWF (statusInsert t s m) := by
  induction m with
  | nil => simp [statusInsert, statusWF]
  | cons hd tl ih =>
      obtain ⟨t0, s0⟩ := hd
      rw [statusWF, List.pairwise_cons] at h
      obtain ⟨hhead, htail⟩ := h
      by_cases h1 : t < t0
      · rw [statusWF]
        simp only [statusInsert, if_pos h1]
        refine List.Pairwise.cons ?_ (List.Pairwise.cons hhead htail)
        intro x hx
        rcases List.mem_cons.mp hx with hx | hx
        · subst hx
          exact h1
        · exact lt_trans h1 (hhead x hx)
      · by_cases h2 : t = t0
        · subst h2
          rw [statusWF]
          simp only [statusInsert, if_neg h1, if_pos rfl]
          exact List.Pairwise.cons hhead htail
        · rw [statusWF]
          simp only [statusInsert, if_neg h1, if_neg h2]
          refine List.Pairwise.cons ?_ (ih htail)
          intro x hx
          rcases mem_statusInsert tl t s x hx with hx | hx
          · subst hx
            omega
          · exact hhead x hx

theorem statusLookup_eq_none_of_lt (m : List (Int × String)) (t : Int)
    (h : ∀ x ∈ m, t < x.1) : statusLookup m t = none := by
  induction m with
  | nil => simp [statusLookup]
  | cons hd tl ih =>
      obtain ⟨t0, s0⟩ := hd
      have ht0 : t < t0 := h (t0, s0) (by simp)
      have : t ≠ t0 := by omega
      simp only [statusLookup, if_neg this]
      exact ih (fun x hx => h x (List.mem_cons_of_mem _ hx))

theorem length_statusInsert_of_present (m : List (Int × String)) (t : Int) (s s0 : String)
    (hwf : statusWF m) (hmem : statusLookup m t = some s0) :
    (statusInsert t s m).length = m.length := by
  induction m with
  | nil => simp [statusLookup] at hmem
  | cons hd tl ih =>
      obtain ⟨t1, s1⟩ := hd
      rw [statusWF, List.pairwise_cons] at hwf
      obtain ⟨hhead, htail⟩ := hwf
      by_cases h2 : t = t1
      · have h1 : ¬ t < t1 := by omega
        simp [statusInsert, h1, h2]
      · simp only [statusLookup, if_neg h2] at hmem
        by_cases h1 : t < t1
        · exfalso
          have : statusLookup tl t = none :=
            statusLookup_eq_none_of_lt tl t (fun x hx => lt_trans h1 (hhead x hx))
          rw [this] at hmem
          exact Option.noConfusion hmem
        · simp only [statusInsert, if_neg h1, if_neg h2, List.length_cons]
          rw [ih htail hmem]

theorem statusInsert_append_of_forall_lt (m : List (Int × String)) (t : Int) (s : String)
    (h : ∀ y ∈ m, y.1 < t) : statusInsert t s m = m ++ [(t, s)] := by
  induction m with
  | nil => simp [statusInsert]
  | cons hd tl ih =>
      obtain ⟨t0, s0⟩ := hd
      have ht0 : t0 < t := h (t0, s0) (by simp)
      have h1 : ¬ t < t0 := by omega
      have h2 : ¬ t = t0 := by omega
      simp only [statusInsert, if_neg h1, if_neg h2, List.cons_append, List.cons.injEq,
        true_and]
      exact ih (fun y hy => h y (List.mem_cons_of_mem _ hy))

theorem statusFromList_aux (entries : List (Int × String)) :
    ∀ acc, statusWF (acc ++ entries) →
      entries.foldl (fun m ts => statusInsert ts.1 ts.2 m) acc = acc ++ entries := by
  induction entries with
  | nil => simp
  | cons hd tl ih =>
      intro acc h
      obtain ⟨t, s⟩ := hd
      have hlt : ∀ y ∈ acc, y.1 < t := by
        rw [statusWF, List.pairwise_append] at h
        intro y hy
        exact h.2.2 y hy (t, s) (by simp)
      have hins : statusInsert t s acc = acc ++ [(t, s)] :=
        statusInsert_append_of_forall_lt acc t s hlt
      have hassoc : (acc ++ [(t, s)]) ++ tl = acc ++ ((t, s) :: tl) := by
        simp
      simp only [List.foldl_cons]
      rw [hins, ih (acc ++ [(t, s)]) (by rw [hassoc]; exact h), hassoc]

theorem statusFromList_eq_self (m : List (Int × String)) (h : statusWF m) :
    statusFromList m = m :=
  statusFromList_aux m [] (by simpa using h)

theorem decodeLead_encodeLead (l : Lead) (h : statusWF l.status_updates) :
    decodeLead (encodeLead l) = l := by
  obtain ⟨p, src, n, iv, rf, su, td, w⟩ := l
  simp only [statusWF] at h
  have hsu : statusFromList su = su := statusFromList_eq_self su h
  cases n <;> cases iv <;> cases rf <;> cases su <;> cases td <;> cases w <;>
    simp_all [decodeLead, encodeLead, statusFromList]

theorem close_lead_none_single (s : Leads) (name : String) (p : Lead)
    (hfind : mapFind? s.leads name = some [p]) (time : Int) (reason : String) :
    s.close_lead time name none reason =
      (.ok (p.add_status time (("Closed: ") ++ reason)),
       { leads := mapRemove s.leads name }) := by
  simp [Leads.close_lead, hfind]

theorem close_lead_some_eq (s : Leads) (name : String) (ps : List Lead)
    (hfind : mapFind? s.leads name = some ps) (time : Int) (reason : String)
    (i : Nat) (h : i < ps.length) :
    s.close_lead time name (some i) reason =
      (.ok (ps[i].add_status time (("Closed: ") ++ reason)),
       if ps.length = 1 then { leads := mapRemove s.leads name }
       else { leads := mapSet s.leads name (ps.eraseIdx i) }) := by
  have hx : ps[i]? = some ps[i] := List.getElem?_eq_getElem h
  have hlen : (ps.eraseIdx i).length + 1 = ps.length := List.length_eraseIdx_add_one h
  by_cases hone : ps.length = 1
  · have hnil : ps.eraseIdx i = [] := by
      have : (ps.eraseIdx i).length = 0 := by omega
      exact List.length_eq_zero.mp this
    simp [Leads.close_lead, hfind, hx, hnil, hone]
  · have hne : ps.eraseIdx i ≠ [] := by
      intro hc
      rw [hc] at hlen
      simp at hlen
      omega
    have : (ps.eraseIdx i).isEmpty = false := by
      simpa [List.isEmpty_iff] using hne
    simp [Leads.close_lead, hfind, hx, this, hone]

theorem close_lead_ok_get (s : Leads) (time : Int) (name : String) (index : Option Nat)
    (reason : String) (l : Lead) (s2 : Leads)
    (h : s.close_lead time name index reason = (.ok l, s2)) :
    ∃ p, s.get name index = .ok p ∧ l = p.add_status time (("Closed: ") ++ reason) := by
  cases hf : mapFind? s.leads name with
  | none => simp [Leads.close_lead, hf] at h
  | some ps =>
      cases index with
      | none =>
          match ps, hf with
          | [], hf => simp [Leads.close_lead, hf] at h
          | [p], hf =>
              refine ⟨p, by simp [Leads.get, hf], ?_⟩
              rw [close_lead_none_single s name p hf time reason] at h
              simp only [Prod.mk.injEq, Except.ok.injEq] at h
              exact h.1.symm
          | a :: b :: tl, hf => simp [Leads.close_lead, hf] at h
      | some i =>
          cases hx : ps[i]? with
          | none => simp [Leads.close_lead, hf, hx] at h
          | some p =>
              have hlt : i < ps.length := by
                rcases List.getElem?_eq_some.mp hx with ⟨h1, _⟩
                exact h1
              have hp : ps[i] = p := by
                rcases List.getElem?_eq_some.mp hx with ⟨h1, h2⟩
                exact h2
              refine ⟨p, by simp [Leads.get, hf, hx], ?_⟩
              rw [close_lead_some_eq s name ps hf time reason i hlt] at h
              simp only [Prod.mk.injEq, Except.ok.injEq] at h
              obtain ⟨h1, h2⟩ := h
              rw [hp] at h1
              exact h1.symm

/-- C1: for every store and company, `get`/`get_mut` fail with the
no-such-company error when the company key is absent; with no index they
return the sole position when the company has exactly one and fail with the
ambiguous-count error when it has two or more; with index `i` they fail
out-of-range exactly when `i` is at least the position count and otherwise
return the position at index `i`. -/
theorem get_resolution_spec (s : Leads) (name : String) :
    (mapFind? s.leads name = none →
      ∀ idx, s.get name idx = .error .noSuchCompany ∧
        s.get_mut name idx = .error .noSuchCompany)
  ∧ (∀ ps, mapFind? s.leads name = some ps →
      (∀ p, ps = [p] → s.get name none = .ok p ∧ s.get_mut name none = .ok p)
      ∧ (2 ≤ ps.length →
          s.get name none = .error (.ambiguous ps.length ("modify")) ∧
          s.get_mut name none = .error (.ambiguous ps.length ("modify")))
      ∧ (∀ i, ps.length ≤ i →
          s.get name (some i) = .error (.outOfRange ps.length i ("modify")) ∧
          s.get_mut name (some i) = .error (.outOfRange ps.length i ("modify")))
      ∧ (∀ i (h : i < ps.length),
          s.get name (some i) = .ok ps[i] ∧ s.get_mut name (some i) = .ok ps[i])) := by
  refine ⟨?_, ?_⟩
  · intro h idx
    constructor <;> simp [Leads.get, Leads.get_mut, h]
  · intro ps hfind
    refine ⟨?_, ?_, ?_, ?_⟩
    · rintro p rfl
      constructor <;> simp [Leads.get, Leads.get_mut, hfind]
    · intro h2
      rcases ps with _ | ⟨a, _ | ⟨b, tl⟩⟩
      · simp at h2
      · simp at h2
      · constructor <;> simp [Leads.get, Leads.get_mut, hfind]
    · intro i hle
      have hx : ps[i]? = none := List.getElem?_eq_none hle
      constructor <;> simp [Leads.get, Leads.get_mut, hfind, hx]
    · intro i h
      have hx : ps[i]? = some ps[i] := List.getElem?_eq_getElem h
      constructor <;> simp [Leads.get, Leads.get_mut, hfind, hx]

/-- Witness for C1 on concrete stores: two positions at Acme are ambiguous
without an index, index 1 resolves, index 2 is out of range, a singleton
store resolves without an index, and an unknown company is not found. -/
theorem get_resolution_spec_wit :
    sampleStore.get ("Acme") none = .error (.ambiguous 2 ("modify"))
  ∧ sampleStore.get ("Acme") (some 1) = .ok sampleLead2
  ∧ sampleStore.get ("Acme") (some 2) = .error (.outOfRange 2 2 ("modify"))
  ∧ soloStore.get ("Acme") none = .ok sampleLead1
  ∧ Leads.new.get ("Acme") none = .error .noSuchCompany := by
  refine ⟨?_, ?_, ?_, ?_, ?_⟩
  · exact (((get_resolution_spec sampleStore ("Acme")).2 [sampleLead1, sampleLead2]
      (by decide)).2.1 (by decide)).1
  · exact (((get_resolution_spec sampleStore ("Acme")).2 [sampleLead1, sampleLead2]
      (by decide)).2.2.2 1 (by decide)).1
  · exact (((get_resolution_spec sampleStore ("Acme")).2 [sampleLead1, sampleLead2]
      (by decide)).2.2.1 2 (by decide)).1
  · exact (((get_resolution_spec soloStore ("Acme")).2 [sampleLead1]
      (by decide)).1 sampleLead1 rfl).1
  · exact ((get_resolution_spec Leads.new ("Acme")).1 (by decide) none).1

/-- C2: for every store, company, resolvable index, time and reason,
`close_lead` removes exactly one position (order-preserving: entries after
the removed index shift down by one), appends a "Closed: reason" status
entry at the given time to the removed Lead, deletes the company key exactly
when no positions remain, and returns the detached Lead by value. -/
theorem close_lead_spec (s : Leads) (name : String) (ps : List Lead)
    (hfind : mapFind? s.leads name = some ps) (time : Int) (reason : String) :
    (∀ p, ps = [p] →
        s.close_lead time name none reason =
          (.ok (p.add_status time (("Closed: ") ++ reason)),
           { leads := mapRemove s.leads name }))
  ∧ (∀ i (h : i < ps.length),
        s.close_lead time name (some i) reason =
          (.ok (ps[i].add_status time (("Closed: ") ++ reason)),
           if ps.length = 1 then { leads := mapRemove s.leads name }
           else { leads := mapSet s.leads name (ps.eraseIdx i) })
        ∧ (ps.eraseIdx i).length + 1 = ps.length
        ∧ (∀ j, j < i → (ps.eraseIdx i)[j]? = ps[j]?)
        ∧ (∀ j, i ≤ j → (ps.eraseIdx i)[j]? = ps[j + 1]?))
  ∧ (s.nodupKeys →
        ∀ i, i < ps.length →
          mapFind? (s.close_lead time name (some i) reason).2.leads name =
            if ps.length = 1 then none else some (ps.eraseIdx i)) := by
  refine ⟨?_, ?_, ?_⟩
  · rintro p rfl
    exact close_lead_none_single s name p hfind time reason
  · intro i h
    refine ⟨close_lead_some_eq s name ps hfind time reason i h,
      List.length_eraseIdx_add_one h, ?_, ?_⟩
    · intro j hj
      simp [List.getElem?_eraseIdx, hj]
    · intro j hj
      have : ¬ j < i := by omega
      simp [List.getElem?_eraseIdx, this]
  · intro hnd i h
    rw [close_lead_some_eq s name ps hfind time reason i h]
    by_cases hone : ps.length = 1
    · simp only [hone, if_pos rfl]
      exact mapFind?_remove_self s.leads name hnd
    · simp only [hone, if_neg hone, if_false]
      exact mapFind?_set_self s.leads name (ps.eraseIdx i)

/-- Witness for C2: closing index 0 of two Acme positions keeps the key with
the remaining position; closing the sole position removes the key. -/
theorem close_lead_spec_wit :
    sampleStore.close_lead 5 ("Acme") (some 0) ("Rejected") =
      (.ok (sampleLead1.add_status 5 (("Closed: ") ++ ("Rejected"))),
       { leads := mapSet sampleStore.leads ("Acme") [sampleLead2] })
  ∧ soloStore.close_lead 5 ("Acme") none ("Rejected") =
      (.ok (sampleLead1.add_status 5 (("Closed: ") ++ ("Rejected"))),
       { leads := mapRemove soloStore.leads ("Acme") }) := by
  constructor
  · have h := ((close_lead_spec sampleStore ("Acme") [sampleLead1, sampleLead2]
      (by decide) 5 ("Rejected")).2.1 0 (by decide)).1
    simpa using h
  · exact (close_lead_spec soloStore ("Acme") [sampleLead1]
      (by decide) 5 ("Rejected")).1 sampleLead1 rfl

/-- C3: `complete_todo` (resp. `complete_wait`) fails with the not-found
error exactly when the index is at least the length of the todo (resp. wait)
list, including on an empty list; on success it removes the entry at that
index (later entries shift left one place, relative order preserved),
shrinks the list by exactly one, and records a "DONE: action" (resp.
"RECEIVED: action") status entry at the given time using the removed
entry's action. -/
theorem complete_task_spec (l : Lead) (t : Int) (i : Nat) :
    ((l.complete_todo t i).1 = .error .noSuchTodo ↔ l.todo.length ≤ i)
  ∧ (∀ td, l.todo[i]? = some td →
      l.complete_todo t i =
        (.ok (), ({ l with todo := l.todo.eraseIdx i }).add_status t
          (("DONE: ") ++ td.action))
      ∧ (l.complete_todo t i).2.todo.length + 1 = l.todo.length
      ∧ (∀ j, j < i → (l.complete_todo t i).2.todo[j]? = l.todo[j]?)
      ∧ (∀ j, i ≤ j → (l.complete_todo t i).2.todo[j]? = l.todo[j + 1]?)
      ∧ statusLookup (l.complete_todo t i).2.status_updates t =
          some (("DONE: ") ++ td.action))
  ∧ ((l.complete_wait t i).1 = .error .noSuchWait ↔ l.wait.length ≤ i)
  ∧ (∀ w, l.wait[i]? = some w →
      l.complete_wait t i =
        (.ok (), ({ l with wait := l.wait.eraseIdx i }).add_status t
          (("RECEIVED: ") ++ w.action))
      ∧ (l.complete_wait t i).2.wait.length + 1 = l.wait.length
      ∧ (∀ j, j < i → (l.complete_wait t i).2.wait[j]? = l.wait[j]?)
      ∧ (∀ j, i ≤ j → (l.complete_wait t i).2.wait[j]? = l.wait[j + 1]?)
      ∧ statusLookup (l.complete_wait t i).2.status_updates t =
          some (("RECEIVED: ") ++ w.action)) := by
  refine ⟨?_, ?_, ?_, ?_⟩
  · cases hx : l.todo[i]? with
    | none =>
        simp only [Lead.complete_todo, hx]
        exact ⟨fun _ => List.getElem?_eq_none_iff.mp hx, fun _ => trivial⟩
    | some td =>
        simp only [Lead.complete_todo, hx]
        constructor
        · intro h
          exact absurd h (by simp)
        · intro h
          rw [List.getElem?_eq_none h] at hx
          exact Option.noConfusion hx
  · intro td hx
    have heq : l.complete_todo t i =
        (.ok (), ({ l with todo := l.todo.eraseIdx i }).add_status t
          (("DONE: ") ++ td.action)) := by
      simp [Lead.complete_todo, hx]
    have hlt : i < l.todo.length := by
      rcases List.getElem?_eq_some.mp hx with ⟨h1, _⟩
      exact h1
    refine ⟨heq, ?_, ?_, ?_, ?_⟩
    · rw [heq]
      simpa [Lead.add_status] using List.length_eraseIdx_add_one hlt
    · intro j hj
      rw [heq]
      simp [Lead.add_status, List.getElem?_eraseIdx, hj]
    · intro j hj
      have : ¬ j < i := by omega
      rw [heq]
      simp [Lead.add_status, List.getElem?_eraseIdx, this]
    · rw [heq]
      simp [Lead.add_status, statusLookup_insert_self]
  · cases hx : l.wait[i]? with
    | none =>
        simp only [Lead.complete_wait, hx]
        exact ⟨fun _ => List.getElem?_eq_none_iff.mp hx, fun _ => trivial⟩
    | some w =>
        simp only [Lead.complete_wait, hx]
        constructor
        · intro h
          exact absurd h (by simp)
        · intro h
          rw [List.getElem?_eq_none h] at hx
          exact Option.noConfusion hx
  · intro w hx
    have heq : l.complete_wait t i =
        (.ok (), ({ l with wait := l.wait.eraseIdx i }).add_status t
          (("RECEIVED: ") ++ w.action)) := by
      simp [Lead.complete_wait, hx]
    have hlt : i < l.wait.length := by
      rcases List.getElem?_eq_some.mp hx with ⟨h1, _⟩
      exact h1
    refine ⟨heq, ?_, ?_, ?_, ?_⟩
    · rw [heq]
      simpa [Lead.add_status] using List.length_eraseIdx_add_one hlt
    · intro j hj
      rw [heq]
      simp [Lead.add_status, List.getElem?_eraseIdx, hj]
    · intro j hj
      have : ¬ j < i := by omega
      rw [heq]
      simp [Lead.add_status, List.getElem?_eraseIdx, this]
    · rw [heq]
      simp [Lead.add_status, statusLookup_insert_self]

/-- Witness for C3: on a lead with one todo, completing index 0 empties the
list and records the DONE entry; completing index 0 on the empty wait list
fails; completing todo index 1 fails. -/
theorem complete_task_spec_wit :
    ((sampleLead1.add_todo 1 ("Send resume") 8).complete_todo 2 0).2.todo = []
  ∧ statusLookup ((sampleLead1.add_todo 1 ("Send resume") 8).complete_todo 2 0).2.status_updates 2 =
      some (("DONE: ") ++ ("Send resume"))
  ∧ ((sampleLead1.add_todo 1 ("Send resume") 8).complete_todo 2 1).1 = .error .noSuchTodo
  ∧ (sampleLead1.complete_wait 2 0).1 = .error .noSuchWait := by
  refine ⟨?_, ?_, ?_, ?_⟩
  · have h := ((complete_task_spec (sampleLead1.add_todo 1 ("Send resume") 8) 2 0).2.1
      { action := ("Send resume"), deadline := 8 } (by decide)).1
    rw [h]
    decide
  · exact ((complete_task_spec (sampleLead1.add_todo 1 ("Send resume") 8) 2 0).2.1
      { action := ("Send resume"), deadline := 8 } (by decide)).2.2.2.2
  · exact ((complete_task_spec (sampleLead1.add_todo 1 ("Send resume") 8) 2 1).1).mpr
      (by decide)
  · exact ((complete_task_spec sampleLead1 2 0).2.2.1).mpr (by decide)

/-- C4: on a Lead with a well-formed timeline, adding statuses at two
distinct timestamps preserves both entries and keeps the timeline strictly
ascending by time; adding a status at a timestamp already present overwrites
the message at that instant and leaves the number of entries unchanged. -/
theorem add_status_timeline_spec (l : Lead) (hwf : statusWF l.status_updates)
    (t1 t2 : Int) (m1 m2 : String) (hne : t1 ≠ t2) :
    (statusLookup ((l.add_status t1 m1).add_status t2 m2).status_updates t1 = some m1
     ∧ statusLookup ((l.add_status t1 m1).add_status t2 m2).status_updates t2 = some m2
     ∧ statusWF ((l.add_status t1 m1).add_status t2 m2).status_updates)
  ∧ (∀ t m0 m', statusLookup l.status_updates t = some m0 →
      (l.add_status t m').status_updates.length = l.status_updates.length
      ∧ statusLookup (l.add_status t m').status_updates t = some m') := by
  refine ⟨⟨?_, ?_, ?_⟩, ?_⟩
  · rw [Lead.add_status, Lead.add_status]
    rw [statusLookup_insert_ne _ t2 t1 m2 hne]
    exact statusLookup_insert_self l.status_updates t1 m1
  · exact statusLookup_insert_self _ t2 m2
  · exact statusWF_insert _ t2 m2 (statusWF_insert _ t1 m1 hwf)
  · intro t m0 m' hmem
    constructor
    · exact length_statusInsert_of_present l.status_updates t m' m0 hwf hmem
    · exact statusLookup_insert_self l.status_updates t m'

/-- Witness for C4: starting from the "Created" seed at time 0, statuses at
times 3 and 1 are both kept in ascending order; re-adding at time 0
overwrites the seed message without growing the timeline. -/
theorem add_status_timeline_spec_wit :
    statusLookup ((sampleLead1.add_status 3 ("a")).add_status 1 ("b")).status_updates 3 = some ("a")
  ∧ statusLookup ((sampleLead1.add_status 3 ("a")).add_status 1 ("b")).status_updates 1 = some ("b")
  ∧ statusWF ((sampleLead1.add_status 3 ("a")).add_status 1 ("b")).status_updates
  ∧ (sampleLead1.add_status 0 ("c")).status_updates.length =
      sampleLead1.status_updates.length
  ∧ statusLookup (sampleLead1.add_status 0 ("c")).status_updates 0 = some ("c") := by
  have h := add_status_timeline_spec sampleLead1
    (by simp [statusWF, sampleLead1, Lead.new]) 3 1 ("a") ("b") (by decide)
  have h2 := h.2 0 ("Created") ("c") (by decide)
  exact ⟨h.1.1, h.1.2.1, h.1.2.2, h2.1, h2.2⟩

theorem push_lead_WF (s : Leads) (name : String) (lead : Lead) (h : s.WF) :
    (s.push_lead name lead).1.WF := by
  obtain ⟨hnd, hne⟩ := h
  cases hf : mapFind? s.leads name with
  | some ps =>
      simp only [Leads.push_lead, hf]
      refine ⟨nodup_keys_mapSet s.leads name (ps ++ [lead]) hnd, ?_⟩
      intro k qs hq
      by_cases hk : k = name
      · subst hk
        rw [mapFind?_set_self] at hq
        cases hq
        simp
      · rw [mapFind?_set_ne s.leads name k (ps ++ [lead]) hk] at hq
        exact hne k qs hq
  | none =>
      simp only [Leads.push_lead, hf]
      constructor
      · simp only [Leads.nodupKeys, List.map_append, List.map_cons, List.map_nil]
        refine List.Nodup.append hnd (by simp) ?_
        intro a ha hb
        simp only [List.mem_singleton] at hb
        subst hb
        exact ((mapFind?_eq_none_iff s.leads a).mp hf) ha
      · intro k qs hq
        by_cases hk : k = name
        · subst hk
          rw [mapFind?_append_single_self s.leads k [lead] hf] at hq
          cases hq
          simp
        · rw [mapFind?_append_single_ne s.leads name k [lead] hk] at hq
          exact hne k qs hq

theorem close_lead_ok_state (s : Leads) (time : Int) (name : String) (index : Option Nat)
    (reason : String) (l : Lead) (s2 : Leads)
    (h : s.close_lead time name index reason = (.ok l, s2)) :
    s2.leads = mapRemove s.leads name ∨
      ∃ rest, rest ≠ [] ∧ s2.leads = mapSet s.leads name rest := by
  cases hf : mapFind? s.leads name with
  | none => simp [Leads.close_lead, hf] at h
  | some ps =>
      cases index with
      | none =>
          match ps, hf with
          | [], hf => simp [Leads.close_lead, hf] at h
          | [p], hf =>
              rw [close_lead_none_single s name p hf time reason] at h
              simp only [Prod.mk.injEq] at h
              exact Or.inl (congrArg Leads.leads h.2.symm)
          | a :: b :: tl, hf => simp [Leads.close_lead, hf] at h
      | some i =>
          cases hx : ps[i]? with
          | none => simp [Leads.close_lead, hf, hx] at h
          | some p =>
              have hlt : i < ps.length := by
                rcases List.getElem?_eq_some.mp hx with ⟨h1, _⟩
                exact h1
              rw [close_lead_some_eq s name ps hf time reason i hlt] at h
              simp only [Prod.mk.injEq] at h
              by_cases hone : ps.length = 1
              · rw [if_pos hone] at h
                exact Or.inl (congrArg Leads.leads h.2.symm)
              · rw [if_neg hone] at h
                refine Or.inr ⟨ps.eraseIdx i, ?_, congrArg Leads.leads h.2.symm⟩
                intro hc
                have := List.length_eraseIdx_add_one hlt
                rw [hc] at this
                simp at this
                omega

theorem close_lead_WF (s : Leads) (time : Int) (name : String) (index : Option Nat)
    (reason : String) (l : Lead) (s2 : Leads) (h : s.WF)
    (hc : s.close_lead time name index reason = (.ok l, s2)) : s2.WF := by
  obtain ⟨hnd, hne⟩ := h
  rcases close_lead_ok_state s time name index reason l s2 hc with h2 | ⟨rest, hrest, h2⟩
  · constructor
    · rw [Leads.nodupKeys, h2]
      exact nodup_keys_mapRemove s.leads name hnd
    · intro k qs hq
      rw [h2] at hq
      by_cases hk : k = name
      · subst hk
        rw [mapFind?_remove_self s.leads k hnd] at hq
        exact Option.noConfusion hq
      · rw [mapFind?_remove_ne s.leads name k hk] at hq
        exact hne k qs hq
  · constructor
    · rw [Leads.nodupKeys, h2]
      exact nodup_keys_mapSet s.leads name rest hnd
    · intro k qs hq
      rw [h2] at hq
      by_cases hk : k = name
      · subst hk
        rw [mapFind?_set_self] at hq
        cases hq
        exact hrest
      · rw [mapFind?_set_ne s.leads name k rest hk] at hq
        exact hne k qs hq

/-- C5: the invariant "a company key is present iff its position list is
non-empty" (with the HashMap unique-key invariant) holds for the empty store
and is preserved by `push_lead`, `new_lead` and successful `close_lead`. -/
theorem store_invariant_preserved :
    Leads.new.WF
  ∧ (∀ (s : Leads) (name : String) (lead : Lead), s.WF → (s.push_lead name lead).1.WF)
  ∧ (∀ (s : Leads) (now : Int) (name position source : String), s.WF →
      (s.new_lead now name position source).1.WF)
  ∧ (∀ (s : Leads) (time : Int) (name : String) (index : Option Nat) (reason : String)
      (l : Lead) (s2 : Leads), s.WF →
      s.close_lead time name index reason = (.ok l, s2) → s2.WF) := by
  refine ⟨?_, ?_, ?_, ?_⟩
  · exact ⟨by simp [Leads.new, Leads.nodupKeys], by intro k ps h; simp [Leads.new, mapFind?] at h⟩
  · exact fun s name lead h => push_lead_WF s name lead h
  · exact fun s now name position source h => push_lead_WF s name (Lead.new now position source) h
  · exact fun s time name index reason l s2 h hc =>
      close_lead_WF s time name index reason l s2 h hc

/-- Witness for C5: pushing a new company into the empty store and then
closing its only position preserves well-formedness at each step. -/
theorem store_invariant_preserved_wit :
    (Leads.new.push_lead ("Acme") sampleLead1).1.WF
  ∧ (soloStore.close_lead 5 ("Acme") none ("Rejected")).2.WF := by
  constructor
  · exact store_invariant_preserved.2.1 Leads.new ("Acme") sampleLead1
      store_invariant_preserved.1
  · refine store_invariant_preserved.2.2.2 soloStore 5 ("Acme") none ("Rejected")
      (sampleLead1.add_status 5 (("Closed: ") ++ ("Rejected")))
      (soloStore.close_lead 5 ("Acme") none ("Rejected")).2
      ⟨by simp [soloStore, Leads.nodupKeys], ?_⟩ ?_
    · intro k ps h
      simp only [soloStore, mapFind?] at h
      by_cases hk : k = ("Acme")
      · rw [if_pos hk] at h
        cases h
        simp
      · rw [if_neg hk] at h
        simp [mapFind?] at h
    · have := close_lead_none_single soloStore ("Acme") sampleLead1 (by decide) 5 ("Rejected")
      rw [this]

theorem docmap_roundtrip (m : List (String × List Lead))
    (h : ∀ kv ∈ m, ∀ l ∈ kv.2, statusWF l.status_updates) :
    (m.map (fun kv => (kv.1, kv.2.map encodeLead))).map
      (fun kv => (kv.1, kv.2.map decodeLead)) = m := by
  induction m with
  | nil => rfl
  | cons kv tl ih =>
      obtain ⟨k, ls⟩ := kv
      have hls : (ls.map encodeLead).map decodeLead = ls := by
        rw [List.map_map]
        have hcong : ∀ l ∈ ls, (decodeLead ∘ encodeLead) l = l := by
          intro l hl
          exact decodeLead_encodeLead l (h (k, ls) (by simp) l hl)
        calc ls.map (decodeLead ∘ encodeLead) = ls.map id := List.map_congr_left hcong
          _ = ls := List.map_id ls
      have htl := ih (fun kv hkv => h kv (List.mem_cons_of_mem _ hkv))
      simp only [List.map_cons]
      rw [htl, hls]

/-- C6: serializing a store to the persisted document and loading it back
yields an identical store: the same company set, the same position order per
company, and identical Lead field values including the order of the status
timeline.  The codec is modelled from the documented format (spec section
6); the hypothesis is the `BTreeMap` sortedness every store built by the
core operations has. -/
theorem serialize_roundtrip (s : Leads) (h : s.statusesWF) :
    decodeLeads (encodeLeads s) = s := by
  obtain ⟨m⟩ := s
  have hm : ∀ kv ∈ m, ∀ l ∈ kv.2, statusWF l.status_updates := h
  exact congrArg Leads.mk (docmap_roundtrip m hm)

/-- Witness for C6: the two-position sample store round-trips exactly. -/
theorem serialize_roundtrip_wit :
    decodeLeads (encodeLeads sampleStore) = sampleStore := by
  refine serialize_roundtrip sampleStore ?_
  intro kv hkv l hl
  simp only [sampleStore, List.mem_cons, List.not_mem_nil, or_false] at hkv
  subst hkv
  simp only [sampleLead1, sampleLead2, Lead.new, List.mem_cons, List.not_mem_nil,
    or_false] at hl
  rcases hl with rfl | rfl <;> simp [statusWF]

/-- C7 counterexample: with two positions at Acme and no index supplied,
`close_lead` and `get` both fail counting 2 positions, but the error values
are not identical — the verb in the message differs ("close" vs "modify"),
both as structured errors and as rendered text. -/
theorem close_get_error_not_identical :
    (sampleStore.close_lead 1 ("Acme") none ("r")).1 = .error (.ambiguous 2 ("close"))
  ∧ sampleStore.get ("Acme") none = .error (.ambiguous 2 ("modify"))
  ∧ StoreError.ambiguous 2 ("close") ≠ StoreError.ambiguous 2 ("modify")
  ∧ (StoreError.ambiguous 2 ("close")).render ≠ (StoreError.ambiguous 2 ("modify")).render := by
  refine ⟨?_, ?_, by decide, by decide⟩
  · simp [sampleStore, Leads.close_lead, mapFind?]
  · simp [sampleStore, Leads.get, mapFind?]

/-- C7 (amended): `close_lead` fails exactly when `get` fails on the same
company and index; the paired errors agree in kind and in the reported
count and index, differing only in the message verb; on success
`close_lead` detaches exactly the lead `get` returns, with the closing
status appended. -/
theorem close_resolves_like_get (s : Leads) (name : String) (index : Option Nat)
    (t : Int) (reason : String) :
    ((s.close_lead t name index reason).1 = .error .noSuchCompany ↔
      s.get name index = .error .noSuchCompany)
  ∧ (∀ c, (s.close_lead t name index reason).1 = .error (.ambiguous c ("close")) ↔
      s.get name index = .error (.ambiguous c ("modify")))
  ∧ (∀ c i, (s.close_lead t name index reason).1 = .error (.outOfRange c i ("close")) ↔
      s.get name index = .error (.outOfRange c i ("modify")))
  ∧ (∀ p, s.get name index = .ok p →
      (s.close_lead t name index reason).1 = .ok (p.add_status t (("Closed: ") ++ reason)))
  ∧ (∀ l, (s.close_lead t name index reason).1 = .ok l →
      ∃ p, s.get name index = .ok p ∧ l = p.add_status t (("Closed: ") ++ reason)) := by
  cases hf : mapFind? s.leads name with
  | none =>
      have hc : s.close_lead t name index reason = (.error .noSuchCompany, s) := by
        simp [Leads.close_lead, hf]
      have hg : s.get name index = .error .noSuchCompany := by
        simp [Leads.get, hf]
      rw [hc, hg]
      simp
  | some ps =>
      cases index with
      | none =>
          rcases ps with _ | ⟨a, _ | ⟨b, tl⟩⟩
          · have hc : s.close_lead t name none reason =
                (.error (.ambiguous 0 ("close")), s) := by
              simp [Leads.close_lead, hf]
            have hg : s.get name none = .error (.ambiguous 0 ("modify")) := by
              simp [Leads.get, hf]
            rw [hc, hg]
            simp
          · have hc := close_lead_none_single s name a hf t reason
            have hg : s.get name none = .ok a := by
              simp [Leads.get, hf]
            rw [hc, hg]
            simp
          · have hc : s.close_lead t name none reason =
                (.error (.ambiguous (b :: tl).length.succ ("close")), s) := by
              simp [Leads.close_lead, hf]
            have hg : s.get name none =
                .error (.ambiguous (b :: tl).length.succ ("modify")) := by
              simp [Leads.get, hf]
            rw [hc, hg]
            simp
      | some i =>
          cases hx : ps[i]? with
          | none =>
              have hlen : ps.length ≤ i := List.getElem?_eq_none_iff.mp hx
              have hc : s.close_lead t name (some i) reason =
                  (.error (.outOfRange ps.length i ("close")), s) := by
                simp [Leads.close_lead, hf, hx]
              have hg : s.get name (some i) =
                  .error (.outOfRange ps.length i ("modify")) := by
                simp [Leads.get, hf, hx]
              rw [hc, hg]
              simp
          | some p =>
              have hlt : i < ps.length := by
                rcases List.getElem?_eq_some.mp hx with ⟨h1, _⟩
                exact h1
              have hp : ps[i] = p := by
                rcases List.getElem?_eq_some.mp hx with ⟨h1, h2⟩
                exact h2
              have hc := close_lead_some_eq s name ps hf t reason i hlt
              rw [hp] at hc
              have hg : s.get name (some i) = .ok p := by
                simp [Leads.get, hf, hx]
              rw [hc, hg]
              simp

/-- Witness for amended C7: closing the sole Acme position succeeds with
exactly the lead `get` resolves, plus the closing status entry. -/
theorem close_resolves_like_get_wit :
    (soloStore.close_lead 5 ("Acme") none ("r")).1 =
      .ok (sampleLead1.add_status 5 (("Closed: ") ++ ("r"))) :=
  (close_resolves_like_get soloStore ("Acme") none 5 ("r")).2.2.2.1 sampleLead1
    (by simp [Leads.get, soloStore, mapFind?])

/-- C8: `position` and `source` are fixed at construction: every core
operation (add_note, add_status, add_todo, complete_todo, add_wait,
complete_wait) leaves them unchanged, and the lead detached by `close_lead`
carries the position and source of the lead `get` resolves. -/
theorem position_source_immutable :
    (∀ (l : Lead) (n note : String),
        (l.add_note n note).position = l.position ∧ (l.add_note n note).source = l.source)
  ∧ (∀ (l : Lead) (t : Int) (st : String),
        (l.add_status t st).position = l.position ∧ (l.add_status t st).source = l.source)
  ∧ (∀ (l : Lead) (t : Int) (a : String) (d : Int),
        (l.add_todo t a d).position = l.position ∧ (l.add_todo t a d).source = l.source)
  ∧ (∀ (l : Lead) (t : Int) (i : Nat),
        (l.complete_todo t i).2.position = l.position ∧
        (l.complete_todo t i).2.source = l.source)
  ∧ (∀ (l : Lead) (t : Int) (a : String) (e : Option Int),
        (l.add_wait t a e).position = l.position ∧ (l.add_wait t a e).source = l.source)
  ∧ (∀ (l : Lead) (t : Int) (i : Nat),
        (l.complete_wait t i).2.position = l.position ∧
        (l.complete_wait t i).2.source = l.source)
  ∧ (∀ (s : Leads) (time : Int) (name : String) (index : Option Nat) (reason : String)
        (l : Lead) (s2 : Leads),
        s.close_lead time name index reason = (.ok l, s2) →
        ∃ p, s.get name index = .ok p ∧ l.position = p.position ∧ l.source = p.source) := by
  refine ⟨?_, ?_, ?_, ?_, ?_, ?_, ?_⟩
  · intro l n note
    exact ⟨rfl, rfl⟩
  · intro l t st
    exact ⟨rfl, rfl⟩
  · intro l t a d
    exact ⟨rfl, rfl⟩
  · intro l t i
    cases hx : l.todo[i]? with
    | none => simp [Lead.complete_todo, hx]
    | some td => simp [Lead.complete_todo, hx, Lead.add_status]
  · intro l t a e
    exact ⟨rfl, rfl⟩
  · intro l t i
    cases hx : l.wait[i]? with
    | none => simp [Lead.complete_wait, hx]
    | some w => simp [Lead.complete_wait, hx, Lead.add_status]
  · intro s time name index reason l s2 hc
    obtain ⟨p, hget, heq⟩ := close_lead_ok_get s time name index reason l s2 hc
    refine ⟨p, hget, ?_, ?_⟩
    · rw [heq]
      rfl
    · rw [heq]
      rfl

/-- Witness for C8: the lead detached by closing the sole Acme position has
the position and source of the lead `get` resolves there. -/
theorem position_source_immutable_wit :
    ∃ p, soloStore.get ("Acme") none = .ok p ∧
      (sampleLead1.add_status 5 (("Closed: ") ++ ("Rejected"))).position = p.position ∧
      (sampleLead1.add_status 5 (("Closed: ") ++ ("Rejected"))).source = p.source :=
  position_source_immutable.2.2.2.2.2.2 soloStore 5 ("Acme") none ("Rejected")
    (sampleLead1.add_status 5 (("Closed: ") ++ ("Rejected")))
    { leads := mapRemove soloStore.leads ("Acme") }
    (by rw [close_lead_none_single soloStore ("Acme") sampleLead1
      (by simp [soloStore, mapFind?]) 5 ("Rejected")])

/-- C9: whenever `complete_todo`, `complete_wait` or `close_lead` returns an
error, the final state equals the initial state: nothing is removed from any
list, no status entry is added, no position or company key disappears. -/
theorem error_leaves_state_unchanged :
    (∀ (l : Lead) (t : Int) (i : Nat) (e : StoreError),
        (l.complete_todo t i).1 = .error e → (l.complete_todo t i).2 = l)
  ∧ (∀ (l : Lead) (t : Int) (i : Nat) (e : StoreError),
        (l.complete_wait t i).1 = .error e → (l.complete_wait t i).2 = l)
  ∧ (∀ (s : Leads) (t : Int) (name : String) (index : Option Nat) (reason : String)
        (e : StoreError),
        (s.close_lead t name index reason).1 = .error e →
        (s.close_lead t name index reason).2 = s) := by
  refine ⟨?_, ?_, ?_⟩
  · intro l t i e h
    cases hx : l.todo[i]? with
    | none => simp [Lead.complete_todo, hx]
    | some td => simp [Lead.complete_todo, hx] at h
  · intro l t i e h
    cases hx : l.wait[i]? with
    | none => simp [Lead.complete_wait, hx]
    | some w => simp [Lead.complete_wait, hx] at h
  · intro s t name index reason e h
    cases hf : mapFind? s.leads name with
    | none => simp [Leads.close_lead, hf]
    | some ps =>
        cases index with
        | none =>
            rcases ps with _ | ⟨a, _ | ⟨b, tl⟩⟩
            · simp [Leads.close_lead, hf]
            · rw [close_lead_none_single s name a hf t reason] at h
              simp at h
            · simp [Leads.close_lead, hf]
        | some i =>
            cases hx : ps[i]? with
            | none => simp [Leads.close_lead, hf, hx]
            | some p =>
                have hlt : i < ps.length := by
                  rcases List.getElem?_eq_some.mp hx with ⟨h1, _⟩
                  exact h1
                rw [close_lead_some_eq s name ps hf t reason i hlt] at h
                simp at h

/-- Witness for C9: completing todo 0 on a lead with an empty todo list
fails and leaves the lead unchanged; closing a position of an unknown
company fails and leaves the store unchanged. -/
theorem error_leaves_state_unchanged_wit :
    (sampleLead1.complete_todo 2 0).2 = sampleLead1
  ∧ (sampleStore.close_lead 2 ("Bcme") none ("r")).2 = sampleStore := by
  constructor
  · exact error_leaves_state_unchanged.1 sampleLead1 2 0 .noSuchTodo rfl
  · exact error_leaves_state_unchanged.2.2 sampleStore 2 ("Bcme") none ("r")
      .noSuchCompany (by simp [Leads.close_lead, sampleStore, mapFind?])

/-- C10: a company key mapping to an empty position list (reachable only
from externally loaded data) never resolves and never reports
no-such-company: with no index the ambiguous error reports 0 positions, and
any supplied index fails out of range; `close_lead` fails the same way and
leaves the store unchanged. -/
theorem empty_position_list_spec (s : Leads) (name : String)
    (h : mapFind? s.leads name = some []) (t : Int) (reason : String) :
    s.get name none = .error (.ambiguous 0 ("modify"))
  ∧ (∀ i, s.get name (some i) = .error (.outOfRange 0 i ("modify")))
  ∧ s.get_mut name none = .error (.ambiguous 0 ("modify"))
  ∧ (∀ i, s.get_mut name (some i) = .error (.outOfRange 0 i ("modify")))
  ∧ s.close_lead t name none reason = (.error (.ambiguous 0 ("close")), s)
  ∧ (∀ i, s.close_lead t name (some i) reason =
      (.error (.outOfRange 0 i ("close")), s)) := by
  refine ⟨?_, ?_, ?_, ?_, ?_, ?_⟩ <;>
    simp [Leads.get, Leads.get_mut, Leads.close_lead, h]

/-- Witness for C10: a store whose Acme key holds an empty list is
ambiguous-with-zero without an index and out of range at index 0. -/
theorem empty_position_list_spec_wit :
    emptySeqStore.get ("Acme") none = .error (.ambiguous 0 ("modify"))
  ∧ emptySeqStore.close_lead 1 ("Acme") (some 0) ("r") =
      (.error (.outOfRange 0 0 ("close")), emptySeqStore) := by
  have h := empty_position_list_spec emptySeqStore ("Acme")
    (by simp [emptySeqStore, mapFind?]) 1 ("r")
  exact ⟨h.1, h.2.2.2.2.2 0⟩
